import Mathlib

/-!
# Verification of the Prototype-Archive-Dashboard normalization and graph pipeline

A shallow embedding of the core data pipeline of the dashboard repository:
text/date normalization (`src/utils/text_normalizer.py`, `src/utils/date_parser.py`),
the entity models (`src/models/action_item.py`, `src/models/decision.py`,
`src/models/meeting.py`, `src/models/person.py`), the archive loader
(`src/parsers/data_parser.py`), the filter service (`src/services/filter_service.py`),
the person extractor (`src/utils/person_extractor.py`) and the graph service
(`src/services/graph_service.py`), together with theorems settling the spec claims.

Python conventions used in the embedding:
* an optional value (a field that may be absent or `None`) is an `Option`;
* Python truthiness of a string (`if s:`) is `s ≠ ""` on a present value;
* Python truthiness of a list is non-emptiness;
* Python `datetime` values are represented by `Nat` codes `y*10000 + m*100 + d`,
  which is order-isomorphic to chronological order for calendar dates;
* a Python `dict` used as a map with insertion order is an association list,
  with update-in-place on the first matching key and append for fresh keys
  (exactly `dict.__setitem__` semantics).
-/

namespace Archive

/-! ## Python string primitives

Structural character-level implementations of `str.strip`, `str.lower`,
`str.split` and digit parsing, so every definition in the file evaluates by
kernel reduction on concrete inputs. -/

/-- Python `str.strip()`: drop leading and trailing whitespace. -/
def strStrip (s : String) : String :=
  ⟨((s.data.dropWhile Char.isWhitespace).reverse.dropWhile Char.isWhitespace).reverse⟩

/-- Python `str.lower()` (ASCII case folding, which covers the archive data). -/
def strLower (s : String) : String :=
  ⟨s.data.map Char.toLower⟩

/-- Python `str.split(sep)` on a single-character separator, over characters. -/
def strSplitChars (sep : Char) : List Char → List (List Char)
  | [] => [[]]
  | c :: cs =>
    match strSplitChars sep cs with
    | [] => [[c]]
    | h :: t => if c = sep then [] :: h :: t else (c :: h) :: t

/-- Python `str.split(sep)` on a single-character separator. -/
def strSplit (s : String) (sep : Char) : List String :=
  (strSplitChars sep s.data).map (fun cs => ⟨cs⟩)

/-- Decimal digit parsing (`int(s)` on an all-digit string, `None` otherwise). -/
def strToNat? (s : String) : Option Nat :=
  if s.data ≠ [] ∧ s.data.all Char.isDigit then
    some (s.data.foldl (fun n c => n * 10 + (c.toNat - 48)) 0)
  else none

/-! ## Association lists (Python `dict` / networkx edge-attribute maps) -/

/-- First-match lookup in an association list, as Python `dict.get`. -/
def alGet? {κ α : Type} [DecidableEq κ] : List (κ × α) → κ → Option α
  | [], _ => none
  | e :: rest, k => if e.1 = k then some e.2 else alGet? rest k

/-- `dict` assignment: overwrite the first entry with the key in place,
append a fresh entry at the end otherwise. -/
def alSet {κ α : Type} [DecidableEq κ] : List (κ × α) → κ → α → List (κ × α)
  | [], k, v => [(k, v)]
  | e :: rest, k, v => if e.1 = k then (k, v) :: rest else e :: alSet rest k v

/-! ## Text normalization (`src/utils/text_normalizer.py`) -/

/-- `parse_comma_separated_string`: split on commas, trim, drop empties;
`None`/empty input gives `[]`. -/
def parseCommaSeparatedString (text : Option String) : List String :=
  match text with
  | none => []
  | some s =>
    if s = "" then []
    else ((strSplit s ',').filter (fun i => strStrip i ≠ "")).map (fun i => strStrip i)

/-- `normalize_name`: trim whitespace, keeping bracket aliases; falsy input gives `""`. -/
def normalizeName (name : String) : String :=
  if name = "" then "" else strStrip name

/-- `normalize_topic`: trim and lowercase; falsy input gives `""`. -/
def normalizeTopic (topic : String) : String :=
  if topic = "" then "" else strLower (strStrip topic)

/-! ## Date parsing (`src/utils/date_parser.py`) -/

/-- Modelled from the spec: `parse_date` delegates to `pandas.to_datetime` and
`dateutil.parser.parse`, external libraries whose code is not part of this
repository.  The model accepts the canonical ISO `YYYY-MM-DD` representation
(the archive's date format per §6 of the spec, "any reasonably-parseable
calendar date representation") and rejects everything else; empty input is
rejected up front exactly as in the source. -/
def parseDate (dateStr : String) : Except String Nat :=
  if dateStr = "" then .error "Date string cannot be empty"
  else
    match (strSplit dateStr '-').map strToNat? with
    | [some y, some m, some d] =>
      if 1 ≤ m ∧ m ≤ 12 ∧ 1 ≤ d ∧ d ≤ 31 then .ok (y * 10000 + m * 100 + d)
      else .error ("Unable to parse date string: " ++ dateStr)
    | _ => .error ("Unable to parse date string: " ++ dateStr)

/-- Python `x.strip() if x else ""` on an optional string. -/
def pyStrip (o : Option String) : String :=
  match o with
  | none => ""
  | some t => if t = "" then "" else strStrip t

/-- Python `x.strip() if x else None` on an optional string. -/
def pyStripOpt (o : Option String) : Option String :=
  match o with
  | none => none
  | some t => if t = "" then none else some (strStrip t)

/-! ## ActionItem (`src/models/action_item.py`) -/

structure ActionItem where
  id : String
  meeting_id : String
  workgroup : String
  date : Nat
  text : String
  status : String
  assignee : Option String
  due_date : Option String
deriving DecidableEq, Repr

/-- `ActionItem._normalize_status`: case-insensitive synonym table with `"todo"`
as the fallback for falsy or unrecognized input.  A `none` argument models a
Python `None` status. -/
def normalizeStatus (status : Option String) : String :=
  match status with
  | none => "todo"
  | some s =>
    if s = "" then "todo"
    else
      let sl := strStrip (strLower s)
      if sl ∈ ["todo", "to do", "to-do"] then "todo"
      else if sl ∈ ["in progress", "in-progress", "inprogress", "in_progress"] then
        "in progress"
      else if sl ∈ ["done", "completed", "complete"] then "done"
      else if sl ∈ ["cancelled", "canceled", "cancelled"] then "cancelled"
      else "todo"

/-- The four canonical statuses (`valid_statuses` in `ActionItem.__init__`). -/
def validStatuses : List String := ["todo", "in progress", "done", "cancelled"]

/-- `ActionItem.__init__`: strip text/assignee/due date, normalize the status,
then validate non-empty text and status membership (a `raise` is an `error`). -/
def mkActionItem (id meeting_id workgroup : String) (date : Nat)
    (text status assignee due_date : Option String) : Except String ActionItem :=
  let text' := pyStrip text
  let status' := normalizeStatus status
  let assignee' := pyStripOpt assignee
  let dueDate' := pyStripOpt due_date
  if text' = "" then .error "text must be non-empty"
  else if status' ∉ validStatuses then
    .error ("status must be one of the valid statuses, got: " ++ status.getD "None")
  else .ok ⟨id, meeting_id, workgroup, date, text', status', assignee', dueDate'⟩

/-! ## Decision (`src/models/decision.py`) -/

structure Decision where
  id : String
  meeting_id : String
  workgroup : String
  date : Nat
  decision_text : String
  effect : String
  rationale : Option String
  opposing : Option String
deriving DecidableEq, Repr

/-- Python `effect or "affectsOnlyThisWorkgroup"`: the default kicks in for a
falsy (`None` or empty) effect. -/
def pyEffectDefault (effect : Option String) : String :=
  match effect with
  | none => "affectsOnlyThisWorkgroup"
  | some s => if s = "" then "affectsOnlyThisWorkgroup" else s

/-- `Decision.__init__`: strip text/rationale/opposing, validate non-empty text,
then normalize the effect case-insensitively, defaulting falsy input to
`"affectsOnlyThisWorkgroup"` and rejecting unrecognized values. -/
def mkDecision (id meeting_id workgroup : String) (date : Nat)
    (decision_text effect rationale opposing : Option String) : Except String Decision :=
  let text' := pyStrip decision_text
  let rationale' := pyStripOpt rationale
  let opposing' := pyStripOpt opposing
  if text' = "" then .error "decision_text must be non-empty"
  else
    let effectNormalized := strLower (pyEffectDefault effect)
    if effectNormalized ∉ ["affectsonlythisworkgroup", "mayaffectotherpeople"] then
      .error ("effect must be affectsOnlyThisWorkgroup or mayAffectOtherPeople, got: "
        ++ (effect.getD "None"))
    else
      .ok ⟨id, meeting_id, workgroup, date, text',
        if effectNormalized = "affectsonlythisworkgroup" then "affectsOnlyThisWorkgroup"
        else "mayAffectOtherPeople",
        rationale', opposing'⟩

/-! ## Meeting (`src/models/meeting.py`) -/

/-- Entry of `meetingInfo.workingDocs`, passed through the parser untouched. -/
structure WorkingDoc where
  title : Option String
  link : Option String
deriving DecidableEq, Repr

/-- `Meeting.__init__` stores its arguments; optional lists default to `[]`
(`x or []`), which the `List` fields model directly. -/
structure Meeting where
  id : String
  workgroup : String
  workgroup_id : String
  date : Nat
  type : String
  no_summary_given : Bool
  canceled_summary : Bool
  host : Option String
  documenter : Option String
  people_present : List String
  purpose : Option String
  type_of_meeting : Option String
  meeting_video_link : Option String
  working_docs : List WorkingDoc
  action_items : List ActionItem
  decisions : List Decision
  discussion_points : List String
  topics_covered : List String
  emotions : List String
deriving DecidableEq, Repr

/-! ## Raw archive records (`src/parsers/data_parser.py` input shape, spec §6) -/

structure RawActionItem where
  text : Option String
  status : Option String
  assignee : Option String
  dueDate : Option String
deriving DecidableEq, Repr

structure RawDecisionItem where
  decision : Option String
  effect : Option String
  rationale : Option String
  opposing : Option String
deriving DecidableEq, Repr

structure RawAgendaItem where
  discussionPoints : Option (List String)
  narrative : Option String
  actionItems : Option (List RawActionItem)
  decisionItems : Option (List RawDecisionItem)
deriving DecidableEq, Repr

structure RawTags where
  topicsCovered : Option String
  emotions : Option String
deriving DecidableEq, Repr

/-- `meetingTopics` may arrive as a list or as a comma-separated string. -/
inductive RawMeetingTopics where
  | ofList (l : List String)
  | ofString (s : String)
deriving DecidableEq, Repr

structure RawMeetingInfo where
  date : Option String
  host : Option String
  documenter : Option String
  peoplePresent : Option String
  purpose : Option String
  typeOfMeeting : Option String
  meetingVideoLink : Option String
  workingDocs : List WorkingDoc
deriving DecidableEq, Repr

/-- A raw archive element.  A `none` in `meetingInfo` models both an absent key
and an empty object: `raw_meeting.get("meetingInfo", {})` maps an absent key to
`{}` and the source's `if not meeting_info:` check treats the empty object and
the default identically.  Likewise `tags = none` models an absent key or empty
object (`raw_meeting.get("tags", {})` only ever calls `.get` on it). -/
structure RawMeeting where
  workgroup : Option String
  workgroup_id : Option String
  type : Option String
  noSummaryGiven : Bool
  canceledSummary : Bool
  meetingInfo : Option RawMeetingInfo
  tags : Option RawTags
  meetingTopics : Option RawMeetingTopics
  agendaItems : List RawAgendaItem
deriving DecidableEq, Repr

/-- Python string truthiness on an optional value: `none` and `some ""` are
falsy, any other value is returned. -/
def pyTruthy? (o : Option String) : Option String :=
  match o with
  | none => none
  | some s => if s = "" then none else some s

/-- `normalize_meeting`: validate the required fields in source order, parse the
date, then extract people, topics, discussion points and the nested action and
decision items (each nested item failure is caught and skipped). -/
def normalizeMeeting (raw : RawMeeting) (index : Nat) : Except String Meeting :=
  match pyTruthy? raw.workgroup with
  | none => .error "Missing required field: workgroup"
  | some workgroup =>
  match pyTruthy? raw.workgroup_id with
  | none => .error "Missing required field: workgroup_id"
  | some workgroup_id =>
  match pyTruthy? raw.type with
  | none => .error "Missing required field: type"
  | some meetingType =>
  match raw.meetingInfo with
  | none => .error "Missing required field: meetingInfo"
  | some meetingInfo =>
  match pyTruthy? meetingInfo.date with
  | none => .error "Missing required field: meetingInfo.date"
  | some dateStr =>
  match parseDate dateStr with
  | .error _ => .error ("Invalid date format: " ++ dateStr)
  | .ok date =>
    let meetingId := workgroup_id ++ "_" ++ dateStr ++ "_" ++ toString index
    let host := match meetingInfo.host with
      | none => none
      | some h => if h = "" then some h else some (normalizeName h)
    let documenter := match meetingInfo.documenter with
      | none => none
      | some d => if d = "" then some d else some (normalizeName d)
    let people_present := (parseCommaSeparatedString meetingInfo.peoplePresent).map normalizeName
    let topics_covered := parseCommaSeparatedString
      (match raw.tags with | none => none | some t => t.topicsCovered)
    let emotions := parseCommaSeparatedString
      (match raw.tags with | none => none | some t => t.emotions)
    let discussion_points := raw.agendaItems.foldl (fun acc item =>
      let acc := match item.discussionPoints with
        | some dps => acc ++ dps
        | none => acc
      match item.narrative with
      | some n => if n = "" then acc else acc ++ [n]
      | none => acc) []
    let topics_covered := match raw.meetingTopics with
      | some (.ofList l) => topics_covered ++ l
      | some (.ofString s) => topics_covered ++ parseCommaSeparatedString (some s)
      | none => topics_covered
    let action_items := raw.agendaItems.enum.foldl (fun acc p =>
      match p.2.actionItems with
      | none => acc
      | some ras => ras.enum.foldl (fun acc2 q =>
          let actionId := meetingId ++ "_action_" ++ toString p.1 ++ "_" ++ toString q.1
          match mkActionItem actionId meetingId workgroup date
              (some (q.2.text.getD ""))
              (some (q.2.status.getD "todo"))
              (match q.2.assignee with
                | none => none
                | some a => if a = "" then none else some (normalizeName a))
              q.2.dueDate with
          | .ok a => acc2 ++ [a]
          | .error _ => acc2) acc) []
    let decisions := raw.agendaItems.enum.foldl (fun acc p =>
      match p.2.decisionItems with
      | none => acc
      | some rds => rds.enum.foldl (fun acc2 q =>
          let decisionId := meetingId ++ "_decision_" ++ toString p.1 ++ "_" ++ toString q.1
          match mkDecision decisionId meetingId workgroup date
              (some (q.2.decision.getD ""))
              (some (q.2.effect.getD "affectsOnlyThisWorkgroup"))
              q.2.rationale q.2.opposing with
          | .ok d => acc2 ++ [d]
          | .error _ => acc2) acc) []
    .ok ⟨meetingId, workgroup, workgroup_id, date, meetingType,
      raw.noSummaryGiven, raw.canceledSummary, host, documenter, people_present,
      meetingInfo.purpose, meetingInfo.typeOfMeeting, meetingInfo.meetingVideoLink,
      meetingInfo.workingDocs, action_items, decisions, discussion_points,
      topics_covered, emotions⟩

/-- The per-element loop of `load_archive`, carrying the enumeration index: a
record that normalizes is appended, a failing record is logged and skipped. -/
def loadArchiveAux : Nat → List RawMeeting → List Meeting
  | _, [] => []
  | index, raw :: rest =>
    match normalizeMeeting raw index with
    | .ok m => m :: loadArchiveAux (index + 1) rest
    | .error _ => loadArchiveAux (index + 1) rest

/-- `load_archive` applied to an already-decoded archive array (file existence
and JSON decoding are archive-level concerns that abort before this loop). -/
def loadArchive (raws : List RawMeeting) : List Meeting :=
  loadArchiveAux 0 raws

/-! ## Filter service (`src/services/filter_service.py`) -/

/-- `has_matching_tag` inside `filter_meetings`: does any normalized query tag
appear among the meeting's normalized topics? -/
def hasMatchingTag (normalizedTags : List String) (topicsList : List String) : Bool :=
  if topicsList = [] then false
  else normalizedTags.any (fun nt => (topicsList.map normalizeTopic).contains nt)

/-- The conjunction of per-criterion masks built by `filter_meetings`; a falsy
criterion (`None`, empty string, empty list) contributes no constraint. -/
def meetingMask (workgroup : Option String) (startDate endDate : Option Nat)
    (tags : Option (List String)) (m : Meeting) : Bool :=
  (match workgroup with
    | none => true
    | some w => if w = "" then true else decide (m.workgroup = w))
  && (match startDate with
    | none => true
    | some s => decide (s ≤ m.date))
  && (match endDate with
    | none => true
    | some e => decide (m.date ≤ e))
  && (match tags with
    | none => true
    | some ts => if ts = [] then true else hasMatchingTag (ts.map normalizeTopic) m.topics_covered)

/-- `FilterService.filter_meetings`: the pandas boolean mask is a per-row
conjunction of criteria and `df[mask]` is an order-preserving selection, so the
DataFrame round-trip is modelled as a list filter under the combined mask. -/
def filterMeetings (meetings : List Meeting) (workgroup : Option String)
    (startDate endDate : Option Nat) (tags : Option (List String)) : List Meeting :=
  if meetings = [] then []
  else meetings.filter (meetingMask workgroup startDate endDate tags)

/-- One `if criterion: filtered = [x for x in filtered if p(criterion, x)]`
stage for a string criterion (falsy `None`/`""` leaves the list untouched). -/
def optFilterStr {α : Type} (l : List α) (c : Option String) (p : String → α → Bool) : List α :=
  match c with
  | none => l
  | some w => if w = "" then l else l.filter (p w)

/-- One `if criterion: filtered = [x for x in filtered if p(criterion, x)]`
stage for a date criterion (`datetime` values are always truthy). -/
def optFilterDate {α : Type} (l : List α) (c : Option Nat) (p : Nat → α → Bool) : List α :=
  match c with
  | none => l
  | some d => l.filter (p d)

/-- `FilterService.filter_decisions`: sequential list comprehensions. -/
def filterDecisions (decisions : List Decision) (workgroup : Option String)
    (startDate endDate : Option Nat) : List Decision :=
  if decisions = [] then []
  else
    let f := decisions
    let f := optFilterStr f workgroup (fun w d => d.workgroup = w)
    let f := optFilterDate f startDate (fun s d => s ≤ d.date)
    let f := optFilterDate f endDate (fun e d => d.date ≤ e)
    f

/-- `FilterService.filter_action_items`: sequential list comprehensions. -/
def filterActionItems (actionItems : List ActionItem) (workgroup assignee status : Option String)
    (startDate endDate : Option Nat) : List ActionItem :=
  if actionItems = [] then []
  else
    let f := actionItems
    let f := optFilterStr f workgroup (fun w a => a.workgroup = w)
    let f := optFilterStr f assignee (fun x a => a.assignee = some x)
    let f := optFilterStr f status (fun st a => a.status = st)
    let f := optFilterDate f startDate (fun s a => s ≤ a.date)
    let f := optFilterDate f endDate (fun e a => a.date ≤ e)
    f

/-! ## Person extraction (`src/models/person.py`, `src/utils/person_extractor.py`) -/

/-- `Person`: the `workgroups` Python set is modelled as its deduplicated
insertion-order list, `roles` as an insertion-ordered association map. -/
structure Person where
  name : String
  workgroups : List String
  meetings_attended : List String
  action_items_assigned : List String
  roles : List (String × List String)
deriving DecidableEq, Repr

/-- `Person.__init__` on a name already validated non-empty by the caller. -/
def Person.create (name : String) : Person :=
  ⟨strStrip name, [], [], [], []⟩

/-- `Person.add_workgroup`. -/
def Person.addWorkgroup (p : Person) (workgroup_id role : String) : Person :=
  let workgroups := if p.workgroups.contains workgroup_id then p.workgroups
    else p.workgroups ++ [workgroup_id]
  let roles := match alGet? p.roles workgroup_id with
    | none => p.roles ++ [(workgroup_id, [role])]
    | some rs => if rs.contains role then p.roles
      else alSet p.roles workgroup_id (rs ++ [role])
  { p with workgroups := workgroups, roles := roles }

/-- `Person.add_meeting`. -/
def Person.addMeeting (p : Person) (meeting_id : String) : Person :=
  if p.meetings_attended.contains meeting_id then p
  else { p with meetings_attended := p.meetings_attended ++ [meeting_id] }

/-- `Person.add_action_item`. -/
def Person.addActionItem (p : Person) (action_item_id : String) : Person :=
  if p.action_items_assigned.contains action_item_id then p
  else { p with action_items_assigned := p.action_items_assigned ++ [action_item_id] }

/-- One visit of `extract_all_people`: `_get_or_create_person` followed by the
mutations applied to the (shared) `Person` object, modelled as an in-place
update of the insertion-ordered people list. -/
def visitPerson (people : List Person) (name workgroup_id role meeting_id : String)
    (actionItemId : Option String) : List Person :=
  let upd := fun (p : Person) =>
    let p := p.addWorkgroup workgroup_id role
    let p := p.addMeeting meeting_id
    match actionItemId with
    | some a => p.addActionItem a
    | none => p
  if people.any (fun p => p.name = name) then
    people.map (fun p => if p.name = name then upd p else p)
  else people ++ [upd (Person.create name)]

/-- `extract_all_people`: host, documenter, people present and action-item
assignees, in source order; the Python `dict` of people is modelled as an
insertion-ordered list keyed by name. -/
def extractAllPeople (meetings : List Meeting) : List Person :=
  meetings.foldl (fun people m =>
    let people := match m.host with
      | none => people
      | some h =>
        if h = "" then people
        else
          let n := normalizeName h
          if n = "" then people else visitPerson people n m.workgroup_id "host" m.id none
    let people := match m.documenter with
      | none => people
      | some d =>
        if d = "" then people
        else
          let n := normalizeName d
          if n = "" then people
          else visitPerson people n m.workgroup_id "documenter" m.id none
    let people := m.people_present.foldl (fun people raw =>
      let n := normalizeName raw
      if n = "" then people
      else visitPerson people n m.workgroup_id "participant" m.id none) people
    let people := m.action_items.foldl (fun people a =>
      match a.assignee with
      | none => people
      | some asg =>
        if asg = "" then people
        else
          let n := normalizeName asg
          if n = "" then people
          else visitPerson people n m.workgroup_id "participant" m.id (some a.id)) people
    people) []

/-! ## Graph service (`src/services/graph_service.py`) -/

/-- An undirected networkx graph: nodes in insertion order with their
`node_type` attribute, edges keyed by the sorted endpoint pair with an optional
`weight` attribute. -/
structure NXGraph where
  nodes : List (String × String)
  edges : List ((String × String) × Option Nat)
deriving DecidableEq, Repr

def NXGraph.empty : NXGraph := ⟨[], []⟩

/-- `graph.add_node(name, node_type=ty)`: fresh names are appended, an existing
node is left as is (its attributes are rewritten with identical values). -/
def NXGraph.addNode (g : NXGraph) (name ty : String) : NXGraph :=
  if g.nodes.any (fun n => n.1 = name) then g
  else { g with nodes := g.nodes ++ [(name, ty)] }

/-- Python string comparison: lexicographic on code points. -/
def charListLt : List Char → List Char → Bool
  | [], [] => false
  | [], _ :: _ => true
  | _ :: _, [] => false
  | a :: as, b :: bs =>
    if a.toNat < b.toNat then true
    else if b.toNat < a.toNat then false
    else charListLt as bs

/-- Python `s1 < s2`. -/
def strLt (a b : String) : Bool :=
  charListLt a.data b.data

/-- `tuple(sorted([t1, t2]))`: the unordered edge key. -/
def sortPair (t1 t2 : String) : String × String :=
  if strLt t2 t1 then (t2, t1) else (t1, t2)

/-- Weight write on an undirected edge: both source branches
(`graph[t1][t2]["weight"] = w` when the edge exists, `add_edge(..., weight=w)`
otherwise) store `w` under the unordered key, which is exactly `alSet`. -/
def NXGraph.setEdgeWeight (g : NXGraph) (t1 t2 : String) (w : Nat) : NXGraph :=
  { g with edges := alSet g.edges (sortPair t1 t2) (some w) }

/-- `graph.add_edge(u, v)` with no attributes: a fresh edge is appended with no
weight, an existing edge keeps its attributes. -/
def NXGraph.addEdgePlain (g : NXGraph) (u v : String) : NXGraph :=
  match alGet? g.edges (sortPair u v) with
  | some _ => g
  | none => { g with edges := g.edges ++ [(sortPair u v, none)] }

/-- Lookup of an undirected edge: `none` when absent, `some w` when present
with attribute set `w`. -/
def NXGraph.findEdge? (g : NXGraph) (u v : String) : Option (Option Nat) :=
  alGet? g.edges (sortPair u v)

/-- `GraphService.build_people_workgroups_graph`.  The Python `set()` of
workgroup names is modelled as a deduplicated list. -/
def buildPeopleWorkgroupsGraph (meetings : List Meeting) : NXGraph :=
  if meetings = [] then NXGraph.empty
  else
    let people := extractAllPeople meetings
    let workgroups := (meetings.map (fun m => m.workgroup)).dedup
    -- `dedup` fixes one iteration order for the Python `set`, whose order is
    -- unspecified; only node insertion order depends on it.
    let g := workgroups.foldl (fun g w => g.addNode w "workgroup") NXGraph.empty
    people.foldl (fun g person =>
      let g := g.addNode person.name "person"
      person.workgroups.foldl (fun g workgroup_id =>
        match (meetings.find? (fun m => m.workgroup_id = workgroup_id)).map
            (fun m => m.workgroup) with
        | some workgroupName => g.addEdgePlain person.name workgroupName
        | none => g) g) g

/-- The per-meeting topic normalization inside the co-occurrence builder:
`[t.lower().strip() for t in meeting.topics_covered if t.strip()]`. -/
def normalizedTopics (m : Meeting) : List String :=
  (m.topics_covered.filter (fun t => strStrip t ≠ "")).map (fun t => strStrip (strLower t))

/-- The inner pair loop `for topic2 in normalized_topics[i + 1:]`: add the node
for `topic2`, bump the co-occurrence counter for the sorted pair, and write the
edge weight from the counter.  The state is the counter dict and the graph. -/
def processInner (c : List ((String × String) × Nat)) (g : NXGraph) (topic1 : String) :
    List String → List ((String × String) × Nat) × NXGraph
  | [] => (c, g)
  | topic2 :: rest =>
    let g := g.addNode topic2 "topic"
    let edge := sortPair topic1 topic2
    let c := alSet c edge ((alGet? c edge).getD 0 + 1)
    let g := g.setEdgeWeight topic1 topic2 ((alGet? c edge).getD 0)
    processInner c g topic1 rest

/-- The outer loop `for i, topic1 in enumerate(normalized_topics)`: add the
node for `topic1`, then pair it with every later topic. -/
def processTopics (c : List ((String × String) × Nat)) (g : NXGraph) :
    List String → List ((String × String) × Nat) × NXGraph
  | [] => (c, g)
  | topic1 :: rest =>
    let g := g.addNode topic1 "topic"
    let st := processInner c g topic1 rest
    processTopics st.1 st.2 rest

/-- The meeting loop of `build_topic_cooccurrence_graph`, skipping meetings
with a falsy `topics_covered`. -/
def buildTopicState (st : List ((String × String) × Nat) × NXGraph) :
    List Meeting → List ((String × String) × Nat) × NXGraph
  | [] => st
  | m :: rest =>
    if m.topics_covered = [] then buildTopicState st rest
    else buildTopicState (processTopics st.1 st.2 (normalizedTopics m)) rest

/-- `GraphService.build_topic_cooccurrence_graph`. -/
def buildTopicCooccurrenceGraph (meetings : List Meeting) : NXGraph :=
  if meetings = [] then NXGraph.empty
  else (buildTopicState ([], NXGraph.empty) meetings).2

/-- The meeting filtering inlined in `GraphService.filter_graph` (workgroup
equality, then inclusive date bounds). -/
def graphFilterMeetings (meetings : List Meeting) (workgroup : Option String)
    (startDate endDate : Option Nat) : List Meeting :=
  let f := meetings
  let f := optFilterStr f workgroup (fun w m => m.workgroup = w)
  let f := optFilterDate f startDate (fun s m => s ≤ m.date)
  let f := optFilterDate f endDate (fun e m => m.date ≤ e)
  f

/-- `GraphService.filter_graph`: filter the source meetings, then rebuild with
the builder chosen by inspecting the original graph's `node_type` labels. -/
def filterGraph (g : NXGraph) (meetings : List Meeting) (workgroup : Option String)
    (startDate endDate : Option Nat) : NXGraph :=
  let filteredMeetings := graphFilterMeetings meetings workgroup startDate endDate
  let nodeTypes := g.nodes.map (fun n => n.2)
  if "person" ∈ nodeTypes ∨ "workgroup" ∈ nodeTypes then
    buildPeopleWorkgroupsGraph filteredMeetings
  else
    buildTopicCooccurrenceGraph filteredMeetings

/-! ## Pair-occurrence counting (the spec's "running occurrence counter") -/

/-- The stream of sorted pair keys contributed by one normalized topic list:
one key per index pair `i < j`, exactly the keys the nested loops touch. -/
def pairKeys : List String → List (String × String)
  | [] => []
  | x :: xs => xs.map (sortPair x) ++ pairKeys xs

/-- The pair keys contributed by one meeting (a falsy topic list is skipped). -/
def meetingPairKeys (m : Meeting) : List (String × String) :=
  if m.topics_covered = [] then [] else pairKeys (normalizedTopics m)

/-- The cumulative number of times the unordered normalized pair `{a, b}`
co-occurs across the collection. -/
def cooccurCount (ms : List Meeting) (a b : String) : Nat :=
  ((ms.map meetingPairKeys).flatten).count (sortPair a b)

/-- Does the graph contain a self-loop edge? -/
def NXGraph.hasSelfLoop (g : NXGraph) : Bool :=
  g.edges.any (fun e => e.1.1 = e.1.2)

/-! ## Concrete test fixtures -/

/-- A meeting that only carries topic tags (all other fields defaulted). -/
def topicsMeeting (id : String) (topics : List String) : Meeting :=
  ⟨id, "WG", "uuid-1", 20250101, "Custom", false, false, none, none, [], none,
    none, none, [], [], [], [], topics, []⟩

/-- The spec's three-meeting co-occurrence example: tags `{A,B}`, `{B,C}`, `{A,C}`. -/
def threeTopicMeetings : List Meeting :=
  [topicsMeeting "m1" ["A", "B"], topicsMeeting "m2" ["B", "C"],
    topicsMeeting "m3" ["A", "C"]]

/-- The three-meeting example plus a fourth meeting re-tagging `{A,B}`. -/
def fourTopicMeetings : List Meeting :=
  threeTopicMeetings ++ [topicsMeeting "m4" ["A", "B"]]

/-! ## Loader fixtures -/

def rawInfoWithDate (d : String) : RawMeetingInfo :=
  ⟨some d, none, none, none, none, none, none, []⟩

/-- A minimal valid raw record. -/
def rawValid (date : String) : RawMeeting :=
  ⟨some "Archives WG", some "uuid-1", some "Custom", false, false,
    some (rawInfoWithDate date), none, none, []⟩

def rawMissingWorkgroup : RawMeeting :=
  { rawValid "2025-01-16" with workgroup := none }

/-- Valid records at indices 0 and 3, a missing-workgroup record at index 1 and
an unparseable-date record at index 2. -/
def exampleArchive : List RawMeeting :=
  [rawValid "2025-01-15", rawMissingWorkgroup, rawValid "not-a-date", rawValid "2025-01-20"]

/-! ## Normalization and filtering helper definitions -/

/-- Every synonym recognized by `_normalize_status` (the union of its four
membership tables). -/
def statusSynonyms : List String :=
  ["todo", "to do", "to-do", "in progress", "in-progress", "inprogress", "in_progress",
    "done", "completed", "complete", "cancelled", "canceled"]

/-- The effect stored by a successful `Decision` construction, `none` on error. -/
def effectOf? (r : Except String Decision) : Option String :=
  match r with
  | .ok d => some d.effect
  | .error _ => none

/-- Inclusive date-range predicate with omittable bounds. -/
def dateInRange (startDate endDate : Option Nat) (d : Nat) : Bool :=
  (match startDate with
    | none => true
    | some s => decide (s ≤ d))
  && (match endDate with
    | none => true
    | some e => decide (d ≤ e))

/-- A meeting with only id and date populated. -/
def datedMeeting (id : String) (d : Nat) : Meeting :=
  ⟨id, "WG", "uuid-1", d, "Custom", false, false, none, none, [], none, none, none,
    [], [], [], [], [], []⟩

/-- A string criterion no tighter than another: absent or equal. -/
def looserStrCriterion (c c' : Option String) : Prop :=
  c' = none ∨ c' = c

/-- A tag criterion no tighter than another: absent or equal. -/
def looserTagsCriterion (t t' : Option (List String)) : Prop :=
  t' = none ∨ t' = t

/-- A start bound no tighter: absent, or present and no later. -/
def looserStartDate (s s' : Option Nat) : Prop :=
  s' = none ∨ ∃ a b, s = some a ∧ s' = some b ∧ b ≤ a

/-- An end bound no tighter: absent, or present and no earlier. -/
def looserEndDate (e e' : Option Nat) : Prop :=
  e' = none ∨ ∃ a b, e = some a ∧ e' = some b ∧ a ≤ b

/-! ## The co-occurrence weight invariant -/

/-- The builder invariant: an edge is present exactly when its pair counter is
positive, and its weight is the current counter value. -/
def EdgeInv (c : List ((String × String) × Nat)) (g : NXGraph) : Prop :=
  ∀ k, alGet? g.edges k =
    if (alGet? c k).getD 0 = 0 then none else some (some ((alGet? c k).getD 0))

/-! ## Association-list lemmas -/

theorem alGet?_alSet_self {κ α : Type} [DecidableEq κ] (l : List (κ × α)) (k : κ) (v : α) :
    alGet? (alSet l k v) k = some v := by
  induction l with
  | nil => simp [alSet, alGet?]
  | cons e rest ih =>
    by_cases h : e.1 = k
    · simp [alSet, h, alGet?]
    · simp [alSet, h, alGet?, ih]

theorem alGet?_alSet_ne {κ α : Type} [DecidableEq κ] (l : List (κ × α)) (k k' : κ) (v : α)
    (h : k' ≠ k) : alGet? (alSet l k v) k' = alGet? l k' := by
  induction l with
  | nil =>
    simp only [alSet, alGet?]
    rw [if_neg (fun hk => h hk.symm)]
  | cons e rest ih =>
    simp only [alSet]
    by_cases he : e.1 = k
    · rw [if_pos he]
      simp only [alGet?]
      rw [if_neg (fun hk => h hk.symm), if_neg (fun hk => h (he ▸ hk).symm)]
    · rw [if_neg he]
      simp only [alGet?]
      by_cases he' : e.1 = k'
      · rw [if_pos he', if_pos he']
      · rw [if_neg he', if_neg he', ih]

theorem addNode_edges (g : NXGraph) (n t : String) : (g.addNode n t).edges = g.edges := by
  unfold NXGraph.addNode
  split <;> rfl

theorem processInner_ctr (t1 : String) (l : List String) :
    ∀ c g k, (alGet? (processInner c g t1 l).1 k).getD 0 =
      (alGet? c k).getD 0 + (l.map (sortPair t1)).count k := by
  induction l with
  | nil => intro c g k; simp [processInner]
  | cons t2 rest ih =>
    intro c g k
    simp only [processInner, List.map_cons, List.count_cons]
    rw [ih]
    by_cases hk : k = sortPair t1 t2
    · subst hk
      rw [alGet?_alSet_self]
      simp
      omega
    · rw [alGet?_alSet_ne _ _ _ _ hk]
      have hbeq : (sortPair t1 t2 == k) = false := by
        rw [beq_eq_false_iff_ne]
        exact fun h => hk h.symm
      rw [hbeq]
      simp

theorem processInner_inv (t1 : String) (l : List String) :
    ∀ c g, EdgeInv c g → EdgeInv (processInner c g t1 l).1 (processInner c g t1 l).2 := by
  induction l with
  | nil => intro c g h; exact h
  | cons t2 rest ih =>
    intro c g h
    simp only [processInner]
    apply ih
    intro k
    simp only [NXGraph.setEdgeWeight, addNode_edges]
    by_cases hk : k = sortPair t1 t2
    · subst hk
      rw [alGet?_alSet_self, alGet?_alSet_self]
      simp
    · rw [alGet?_alSet_ne _ _ _ _ hk, alGet?_alSet_ne _ _ _ _ hk]
      exact h k

theorem processTopics_ctr (l : List String) :
    ∀ c g k, (alGet? (processTopics c g l).1 k).getD 0 =
      (alGet? c k).getD 0 + (pairKeys l).count k := by
  induction l with
  | nil => intro c g k; simp [processTopics, pairKeys]
  | cons x xs ih =>
    intro c g k
    simp only [processTopics, pairKeys, List.count_append]
    rw [ih, processInner_ctr]
    omega

theorem EdgeInv_addNode (c : List ((String × String) × Nat)) (g : NXGraph) (n t : String)
    (h : EdgeInv c g) : EdgeInv c (g.addNode n t) := by
  intro k
  rw [addNode_edges]
  exact h k

theorem processTopics_inv (l : List String) :
    ∀ c g, EdgeInv c g → EdgeInv (processTopics c g l).1 (processTopics c g l).2 := by
  induction l with
  | nil => intro c g h; exact h
  | cons x xs ih =>
    intro c g h
    simp only [processTopics]
    exact ih _ _ (processInner_inv x xs _ _ (EdgeInv_addNode _ _ _ _ h))

theorem buildTopicState_ctr (ms : List Meeting) :
    ∀ st k, (alGet? (buildTopicState st ms).1 k).getD 0 =
      (alGet? st.1 k).getD 0 + ((ms.map meetingPairKeys).flatten).count k := by
  induction ms with
  | nil => intro st k; simp [buildTopicState]
  | cons m rest ih =>
    intro st k
    simp only [List.map_cons, List.flatten_cons, List.count_append]
    by_cases hm : m.topics_covered = []
    · rw [buildTopicState, if_pos hm, ih]
      simp [meetingPairKeys, hm]
    · rw [buildTopicState, if_neg hm, ih, processTopics_ctr]
      simp only [meetingPairKeys, hm, if_neg, if_false]
      omega

theorem buildTopicState_inv (ms : List Meeting) :
    ∀ st, EdgeInv st.1 st.2 → EdgeInv (buildTopicState st ms).1 (buildTopicState st ms).2 := by
  induction ms with
  | nil => intro st h; exact h
  | cons m rest ih =>
    intro st h
    by_cases hm : m.topics_covered = []
    · rw [buildTopicState, if_pos hm]
      exact ih st h
    · rw [buildTopicState, if_neg hm]
      exact ih _ (processTopics_inv _ _ _ h)

/-- The weight law of `build_topic_cooccurrence_graph`: an unordered pair's
edge exists iff its cumulative co-occurrence count is positive, and then its
weight is that count. -/
theorem buildTopic_findEdge_law (ms : List Meeting) (a b : String) :
    (buildTopicCooccurrenceGraph ms).findEdge? a b =
      if cooccurCount ms a b = 0 then none else some (some (cooccurCount ms a b)) := by
  unfold buildTopicCooccurrenceGraph
  by_cases h : ms = []
  · subst h
    simp [NXGraph.findEdge?, NXGraph.empty, alGet?, cooccurCount]
  · rw [if_neg h]
    have hinv : EdgeInv (buildTopicState ([], NXGraph.empty) ms).1
        (buildTopicState ([], NXGraph.empty) ms).2 := by
      apply buildTopicState_inv
      intro k
      simp [alGet?, NXGraph.empty]
    have hctr := buildTopicState_ctr ms ([], NXGraph.empty) (sortPair a b)
    simp only [alGet?, Option.getD_none, Nat.zero_add] at hctr
    rw [NXGraph.findEdge?, hinv (sortPair a b), hctr]
    rfl

/-! ## Self-loop analysis -/

theorem charListLt_irrefl : ∀ l : List Char, charListLt l l = false := by
  intro l
  induction l with
  | nil => rfl
  | cons c cs ih => simp [charListLt, ih]

theorem sortPair_self (a : String) : sortPair a a = (a, a) := by
  simp [sortPair, strLt, charListLt_irrefl]

theorem sortPair_eq_diag_iff (x y a : String) : sortPair x y = (a, a) ↔ x = a ∧ y = a := by
  unfold sortPair
  split
  · simp [Prod.ext_iff, and_comm]
  · simp [Prod.ext_iff]

theorem map_sortPair_count_diag (x a : String) (xs : List String) :
    (xs.map (sortPair x)).count (a, a) = if x = a then xs.count a else 0 := by
  induction xs with
  | nil => simp
  | cons y ys ih =>
    simp only [List.map_cons, List.count_cons, ih, beq_iff_eq, sortPair_eq_diag_iff]
    by_cases hx : x = a <;> by_cases hy : y = a <;> simp [hx, hy]

theorem pairKeys_count_diag (l : List String) (a : String) :
    (pairKeys l).count (a, a) ≠ 0 ↔ 2 ≤ l.count a := by
  induction l with
  | nil => simp [pairKeys]
  | cons x xs ih =>
    simp only [pairKeys, List.count_append, map_sortPair_count_diag, List.count_cons,
      beq_iff_eq]
    by_cases hx : x = a
    · subst hx
      rw [if_pos rfl, if_pos rfl]
      omega
    · simp only [if_neg hx, if_neg (Ne.symm hx)]
      omega

theorem cooccur_diag_iff (ms : List Meeting) (a : String) :
    cooccurCount ms a a ≠ 0 ↔ ∃ m ∈ ms, 2 ≤ (normalizedTopics m).count a := by
  unfold cooccurCount
  rw [sortPair_self]
  induction ms with
  | nil => simp
  | cons m rest ih =>
    simp only [List.map_cons, List.flatten_cons, List.count_append, List.mem_cons]
    have h1 : (meetingPairKeys m).count (a, a) ≠ 0 ↔ 2 ≤ (normalizedTopics m).count a := by
      unfold meetingPairKeys
      by_cases hm : m.topics_covered = []
      · simp [hm, normalizedTopics]
      · rw [if_neg hm]
        exact pairKeys_count_diag _ _
    constructor
    · intro h
      rcases (by omega :
          (meetingPairKeys m).count (a, a) ≠ 0 ∨
            ((rest.map meetingPairKeys).flatten).count (a, a) ≠ 0) with hA | hB
      · exact ⟨m, Or.inl rfl, h1.mp hA⟩
      · obtain ⟨m', hm', hc⟩ := ih.mp hB
        exact ⟨m', Or.inr hm', hc⟩
    · rintro ⟨m', hm' | hm', hc⟩
      · have := h1.mpr (hm' ▸ hc)
        omega
      · have := ih.mpr ⟨m', hm', hc⟩
        omega

/-- **C1**: in the topic co-occurrence graph, every unordered pair of distinct
normalized topics carries an edge weighted by the cumulative number of times
the pair co-occurs across the whole collection; the `{A,B}`, `{B,C}`, `{A,C}`
example gives a 3-node, 3-edge graph with all weights 1, and a fourth `{A,B}`
meeting bumps only the A-B edge to 2. -/
theorem topic_cooccurrence_weights_correct :
    (∀ (ms : List Meeting) (a b : String), a ≠ b →
      (buildTopicCooccurrenceGraph ms).findEdge? a b =
        if cooccurCount ms a b = 0 then none else some (some (cooccurCount ms a b)))
    ∧ (buildTopicCooccurrenceGraph threeTopicMeetings).nodes =
        [("a", "topic"), ("b", "topic"), ("c", "topic")]
    ∧ (buildTopicCooccurrenceGraph threeTopicMeetings).edges =
        [(("a", "b"), some 1), (("b", "c"), some 1), (("a", "c"), some 1)]
    ∧ (buildTopicCooccurrenceGraph fourTopicMeetings).edges =
        [(("a", "b"), some 2), (("b", "c"), some 1), (("a", "c"), some 1)] :=
  ⟨fun ms a b _ => buildTopic_findEdge_law ms a b, by decide, by decide, by decide⟩

/-- Witness for C1: the distinct pair `a ≠ b` instantiated on the four-meeting
example, where the A-B edge carries cumulative weight 2. -/
theorem topic_cooccurrence_weights_correct_witness :
    ("a" : String) ≠ "b" ∧
      (buildTopicCooccurrenceGraph fourTopicMeetings).findEdge? "a" "b" = some (some 2) := by
  refine ⟨by decide, ?_⟩
  have h := topic_cooccurrence_weights_correct.1 fourTopicMeetings "a" "b" (by decide)
  rw [h]
  decide

/-- **C2** counterexample: a meeting tagged `["AI", "ai"]` (the same topic
twice after normalization) produces a self-loop edge `("ai", "ai")` of weight 1
in the built graph, so the graph is not self-loop free. -/
theorem no_self_loop_counterexample :
    (buildTopicCooccurrenceGraph [topicsMeeting "m1" ["AI", "ai"]]).hasSelfLoop = true
    ∧ (buildTopicCooccurrenceGraph [topicsMeeting "m1" ["AI", "ai"]]).findEdge? "ai" "ai" =
        some (some 1) := by
  constructor
  · decide
  · decide

/-- **C2** amended: a meeting listing the same topic twice after normalization
does self-pair — the co-occurrence graph has a self-loop edge at a normalized
topic exactly when some meeting's normalized topic list contains that topic at
least twice. -/
theorem self_loop_iff_duplicate_topic :
    ∀ (ms : List Meeting) (a : String),
      ((buildTopicCooccurrenceGraph ms).findEdge? a a).isSome = true ↔
        ∃ m ∈ ms, 2 ≤ (normalizedTopics m).count a := by
  intro ms a
  rw [buildTopic_findEdge_law]
  by_cases h : cooccurCount ms a a = 0
  · rw [if_pos h]
    simp only [Option.isSome_none, Bool.false_eq_true, false_iff]
    intro hex
    exact (cooccur_diag_iff ms a).mpr hex h
  · rw [if_neg h]
    simp only [Option.isSome_some, true_iff]
    exact (cooccur_diag_iff ms a).mp h

/-! ## Status and effect normalization lemmas -/

theorem normalizeStatus_mem (st : Option String) : normalizeStatus st ∈ validStatuses := by
  unfold normalizeStatus validStatuses
  rcases st with _ | s
  · simp
  · by_cases h0 : s = ""
    · simp [h0]
    · simp only [h0, if_false]
      split_ifs <;> simp

theorem normalizeStatus_unrecognized (s : String)
    (h : strStrip (strLower s) ∉ statusSynonyms) : normalizeStatus (some s) = "todo" := by
  simp only [statusSynonyms, List.mem_cons, List.not_mem_nil, or_false, not_or] at h
  obtain ⟨h1, h2, h3, h4, h5, h6, h7, h8, h9, h10, h11, h12⟩ := h
  unfold normalizeStatus
  by_cases h0 : s = ""
  · simp [h0]
  · simp only [h0, if_false]
    rw [if_neg (by simp [h1, h2, h3]), if_neg (by simp [h4, h5, h6, h7]),
      if_neg (by simp [h8, h9, h10]), if_neg (by simp [h11, h12])]

/-- `ActionItem` construction in closed form: the status check never fires. -/
theorem mkActionItem_eq (id mid wg : String) (dt : Nat)
    (text status assignee dd : Option String) :
    mkActionItem id mid wg dt text status assignee dd =
      if pyStrip text = "" then .error "text must be non-empty"
      else .ok ⟨id, mid, wg, dt, pyStrip text, normalizeStatus status,
        pyStripOpt assignee, pyStripOpt dd⟩ := by
  unfold mkActionItem
  by_cases h : pyStrip text = ""
  · simp [h]
  · simp only [h, if_false]
    rw [if_neg (fun hc => hc (normalizeStatus_mem status))]

/-- `Decision` construction in closed form, given non-empty text: dispatch on
the lower-cased defaulted effect. -/
theorem mkDecision_eq (id mid wg : String) (dt : Nat)
    (text eff rat opp : Option String) (htext : pyStrip text ≠ "") :
    mkDecision id mid wg dt text eff rat opp =
      if strLower (pyEffectDefault eff) = "affectsonlythisworkgroup" then
        .ok ⟨id, mid, wg, dt, pyStrip text, "affectsOnlyThisWorkgroup",
          pyStripOpt rat, pyStripOpt opp⟩
      else if strLower (pyEffectDefault eff) = "mayaffectotherpeople" then
        .ok ⟨id, mid, wg, dt, pyStrip text, "mayAffectOtherPeople",
          pyStripOpt rat, pyStripOpt opp⟩
      else .error ("effect must be affectsOnlyThisWorkgroup or mayAffectOtherPeople, got: "
        ++ (eff.getD "None")) := by
  unfold mkDecision
  rw [if_neg htext]
  by_cases h1 : strLower (pyEffectDefault eff) = "affectsonlythisworkgroup"
  · rw [if_neg (by simp [h1]), if_pos h1, if_pos h1]
  · by_cases h2 : strLower (pyEffectDefault eff) = "mayaffectotherpeople"
    · rw [if_neg (by simp [h2]), if_neg h1, if_neg h1, if_pos h2]
    · rw [if_pos (by simp [h1, h2]), if_neg h1, if_neg h2]

/-- **C4**: status normalization maps the known synonyms (`"To-Do"`,
`"in_progress"`, `"Completed"`, `"Canceled"`) to their canonical values,
sends every unrecognized status to `"todo"` (the constructor does not raise on
it), and always lands in the four canonical values. -/
theorem action_item_status_normalization :
    normalizeStatus (some "To-Do") = "todo"
    ∧ normalizeStatus (some "in_progress") = "in progress"
    ∧ normalizeStatus (some "Completed") = "done"
    ∧ normalizeStatus (some "Canceled") = "cancelled"
    ∧ (∀ st : Option String, normalizeStatus st ∈ validStatuses)
    ∧ (∀ s : String, strStrip (strLower s) ∉ statusSynonyms →
        normalizeStatus (some s) = "todo")
    ∧ (∀ (id mid wg : String) (dt : Nat) (t s : String), strStrip t ≠ "" →
        strStrip (strLower s) ∉ statusSynonyms →
        mkActionItem id mid wg dt (some t) (some s) none none =
          .ok ⟨id, mid, wg, dt, strStrip t, "todo", none, none⟩) := by
  refine ⟨by decide, by decide, by decide, by decide, normalizeStatus_mem,
    normalizeStatus_unrecognized, ?_⟩
  intro id mid wg dt t s ht hs
  have htt : t ≠ "" := fun h0 => ht (by simp [h0, strStrip])
  rw [mkActionItem_eq]
  rw [if_neg (by simp [pyStrip, htt, ht])]
  simp [pyStrip, pyStripOpt, htt, normalizeStatus_unrecognized s hs]

/-- Witness for C4: the unrecognized status `"Blocked"` on a concrete action
item constructs successfully with status `"todo"`. -/
theorem action_item_status_normalization_witness :
    strStrip "Do it" ≠ ""
    ∧ strStrip (strLower "Blocked") ∉ statusSynonyms
    ∧ mkActionItem "a1" "m1" "WG" 20250101 (some "Do it") (some "Blocked") none none =
        .ok ⟨"a1", "m1", "WG", 20250101, strStrip "Do it", "todo", none, none⟩ :=
  ⟨by decide, by decide,
    action_item_status_normalization.2.2.2.2.2.2 "a1" "m1" "WG" 20250101 "Do it" "Blocked"
      (by decide) (by decide)⟩

/-- **C8**: `_normalize_status` is total onto the four canonical statuses, so
`ActionItem.__init__`'s status-validation branch is unreachable: the
constructor errors only with the empty-text message, exactly when the stripped
text is empty. -/
theorem action_item_constructor_total :
    (∀ st : Option String, normalizeStatus st ∈ validStatuses)
    ∧ (∀ (id mid wg : String) (dt : Nat) (text status assignee dd : Option String)
        (e : String), mkActionItem id mid wg dt text status assignee dd = .error e →
          e = "text must be non-empty" ∧ pyStrip text = "")
    ∧ (∀ (id mid wg : String) (dt : Nat) (text status assignee dd : Option String),
        pyStrip text ≠ "" →
        mkActionItem id mid wg dt text status assignee dd =
          .ok ⟨id, mid, wg, dt, pyStrip text, normalizeStatus status,
            pyStripOpt assignee, pyStripOpt dd⟩) := by
  refine ⟨normalizeStatus_mem, ?_, ?_⟩
  · intro id mid wg dt text status assignee dd e he
    rw [mkActionItem_eq] at he
    by_cases h : pyStrip text = ""
    · rw [if_pos h] at he
      exact ⟨((Except.error.injEq _ _).mp he).symm, h⟩
    · rw [if_neg h] at he
      exact absurd he (by simp)
  · intro id mid wg dt text status assignee dd h
    rw [mkActionItem_eq, if_neg h]

/-- Witness for C8: a concrete failing construction (empty text) yields exactly
the text error, and a concrete non-empty text constructs successfully. -/
theorem action_item_constructor_total_witness :
    ("text must be non-empty" = "text must be non-empty" ∧ pyStrip (some " ") = "")
    ∧ mkActionItem "a1" "m1" "WG" 20250101 (some "Fix") (some "???") none none =
        .ok ⟨"a1", "m1", "WG", 20250101, pyStrip (some "Fix"), normalizeStatus (some "???"),
          pyStripOpt none, pyStripOpt none⟩ :=
  ⟨action_item_constructor_total.2.1 "a1" "m1" "WG" 20250101 (some " ") none none none
      "text must be non-empty" (by rw [mkActionItem_eq, if_pos (by decide)]),
    action_item_constructor_total.2.2 "a1" "m1" "WG" 20250101 (some "Fix") (some "???")
      none none (by decide)⟩

/-- **C5**: `Decision` normalizes the effect case-insensitively to one of the
two canonical strings, defaults a missing or empty effect to
`"affectsOnlyThisWorkgroup"`, and (with valid text) errors exactly when a
non-empty effect matches neither canonical value case-insensitively. -/
theorem decision_effect_normalization :
    ∀ (id mid wg : String) (dt : Nat) (text rat opp : Option String),
      pyStrip text ≠ "" →
      effectOf? (mkDecision id mid wg dt text (some "MAYAFFECTOTHERPEOPLE") rat opp) =
          some "mayAffectOtherPeople"
      ∧ effectOf? (mkDecision id mid wg dt text none rat opp) =
          some "affectsOnlyThisWorkgroup"
      ∧ effectOf? (mkDecision id mid wg dt text (some "") rat opp) =
          some "affectsOnlyThisWorkgroup"
      ∧ (∀ eff : Option String,
          (∃ e, mkDecision id mid wg dt text eff rat opp = .error e) ↔
            ∃ s, eff = some s ∧ s ≠ "" ∧ strLower s ≠ "affectsonlythisworkgroup"
              ∧ strLower s ≠ "mayaffectotherpeople")
      ∧ (∀ (eff : Option String) (dec : Decision),
          mkDecision id mid wg dt text eff rat opp = .ok dec →
            dec.effect = "affectsOnlyThisWorkgroup" ∨ dec.effect = "mayAffectOtherPeople") := by
  intro id mid wg dt text rat opp htext
  refine ⟨?_, ?_, ?_, ?_, ?_⟩
  · rw [mkDecision_eq _ _ _ _ _ _ _ _ htext, if_neg (by decide), if_pos (by decide)]
    rfl
  · rw [mkDecision_eq _ _ _ _ _ _ _ _ htext, if_pos (by decide)]
    rfl
  · rw [mkDecision_eq _ _ _ _ _ _ _ _ htext, if_pos (by decide)]
    rfl
  · intro eff
    rw [mkDecision_eq _ _ _ _ _ _ _ _ htext]
    constructor
    · rintro ⟨e, he⟩
      rcases eff with _ | s
      · rw [if_pos (by decide)] at he
        exact absurd he (by simp)
      · by_cases h0 : s = ""
        · rw [if_pos (by simp [pyEffectDefault, h0]; decide)] at he
          exact absurd he (by simp)
        · by_cases h1 : strLower s = "affectsonlythisworkgroup"
          · rw [if_pos (by simp [pyEffectDefault, h0, h1])] at he
            exact absurd he (by simp)
          · by_cases h2 : strLower s = "mayaffectotherpeople"
            · rw [if_neg (by simp [pyEffectDefault, h0, h1]),
                if_pos (by simp [pyEffectDefault, h0, h2])] at he
              exact absurd he (by simp)
            · exact ⟨s, rfl, h0, h1, h2⟩
    · rintro ⟨s, rfl, h0, h1, h2⟩
      exact ⟨"effect must be affectsOnlyThisWorkgroup or mayAffectOtherPeople, got: "
          ++ ((some s : Option String).getD "None"),
        by rw [if_neg (by simp [pyEffectDefault, h0, h1]),
          if_neg (by simp [pyEffectDefault, h0, h2])]⟩
  · intro eff dec hok
    rw [mkDecision_eq _ _ _ _ _ _ _ _ htext] at hok
    by_cases h1 : strLower (pyEffectDefault eff) = "affectsonlythisworkgroup"
    · rw [if_pos h1] at hok
      left
      cases hok
      rfl
    · by_cases h2 : strLower (pyEffectDefault eff) = "mayaffectotherpeople"
      · rw [if_neg h1, if_pos h2] at hok
        right
        cases hok
        rfl
      · rw [if_neg h1, if_neg h2] at hok
        exact absurd hok (by simp)

/-- Witness for C5: concrete decision text, concrete effect inputs — the upper
case effect normalizes, and `"bogus"` is rejected. -/
theorem decision_effect_normalization_witness :
    pyStrip (some "Adopt the proposal") ≠ ""
    ∧ effectOf? (mkDecision "d1" "m1" "WG" 20250101 (some "Adopt the proposal")
        (some "MAYAFFECTOTHERPEOPLE") none none) = some "mayAffectOtherPeople"
    ∧ (∃ e, mkDecision "d1" "m1" "WG" 20250101 (some "Adopt the proposal")
        (some "bogus") none none = .error e) := by
  have h := decision_effect_normalization "d1" "m1" "WG" 20250101
    (some "Adopt the proposal") none none (by decide)
  exact ⟨by decide, h.1, (h.2.2.2.1 (some "bogus")).mpr ⟨"bogus", rfl, by decide, by decide,
    by decide⟩⟩

/-! ## Loader and record-normalization lemmas -/

theorem pyTruthy?_none_of_falsy (o : Option String) (h : o = none ∨ o = some "") :
    pyTruthy? o = none := by
  rcases h with h | h <;> simp [h, pyTruthy?]

theorem pyTruthy?_of_truthy (o : Option String) (h : ¬(o = none ∨ o = some "")) :
    ∃ s, o = some s ∧ s ≠ "" ∧ pyTruthy? o = some s := by
  rcases o with _ | s
  · exact absurd (Or.inl rfl) h
  · have hs : s ≠ "" := fun h0 => h (Or.inr (by rw [h0]))
    exact ⟨s, rfl, hs, by simp [pyTruthy?, hs]⟩

theorem loadArchiveAux_eq (raws : List RawMeeting) :
    ∀ n, loadArchiveAux n raws =
      (raws.enumFrom n).filterMap (fun p => (normalizeMeeting p.2 p.1).toOption) := by
  induction raws with
  | nil => intro n; rfl
  | cons r rest ih =>
    intro n
    simp only [loadArchiveAux, List.enumFrom, List.filterMap_cons]
    cases h : normalizeMeeting r n with
    | ok m => simp [h, Except.toOption, ih]
    | error e => simp [h, Except.toOption, ih]

theorem filterMap_map_some_of_all_isSome {α β : Type} (l : List α) (f : α → Option β)
    (h : ∀ p ∈ l, (f p).isSome = true) : (l.filterMap f).map some = l.map f := by
  induction l with
  | nil => rfl
  | cons a rest ih =>
    obtain ⟨b, hb⟩ := Option.isSome_iff_exists.mp (h a (List.mem_cons_self a rest))
    simp only [List.filterMap_cons, hb, List.map_cons]
    rw [ih (fun p hp => h p (List.mem_cons_of_mem a hp))]

/-- **C3**: `load_archive` returns exactly the meetings of the records whose
normalization succeeds, in source order; an all-valid archive of N records
loads as exactly those N meetings in order, and a bad record (missing required
field or unparseable date) is skipped without aborting its siblings. -/
theorem load_archive_skips_bad_records :
    (∀ raws : List RawMeeting,
      loadArchive raws = raws.enum.filterMap (fun p => (normalizeMeeting p.2 p.1).toOption))
    ∧ (∀ raws : List RawMeeting,
        (∀ p ∈ raws.enum, ((normalizeMeeting p.2 p.1).toOption).isSome = true) →
        (loadArchive raws).map some = raws.enum.map (fun p => (normalizeMeeting p.2 p.1).toOption)
          ∧ (loadArchive raws).length = raws.length)
    ∧ (loadArchive exampleArchive).map (fun m => m.id) =
        ["uuid-1_2025-01-15_0", "uuid-1_2025-01-20_3"] := by
  have haux : ∀ raws : List RawMeeting,
      loadArchive raws = raws.enum.filterMap (fun p => (normalizeMeeting p.2 p.1).toOption) :=
    fun raws => loadArchiveAux_eq raws 0
  refine ⟨haux, ?_, ?_⟩
  · intro raws h
    have hm : (loadArchive raws).map some =
        raws.enum.map (fun p => (normalizeMeeting p.2 p.1).toOption) := by
      rw [haux raws]
      exact filterMap_map_some_of_all_isSome _ _ h
    refine ⟨hm, ?_⟩
    have := congrArg List.length hm
    simpa [List.enum_length] using this
  · decide

/-- Witness for C3: on a concrete all-valid two-record archive the loader
returns exactly two meetings, in array order. -/
theorem load_archive_skips_bad_records_witness :
    (∀ p ∈ [rawValid "2025-01-15", rawValid "2025-01-20"].enum,
      ((normalizeMeeting p.2 p.1).toOption).isSome = true)
    ∧ (loadArchive [rawValid "2025-01-15", rawValid "2025-01-20"]).map some =
        [rawValid "2025-01-15", rawValid "2025-01-20"].enum.map
          (fun p => (normalizeMeeting p.2 p.1).toOption)
    ∧ (loadArchive [rawValid "2025-01-15", rawValid "2025-01-20"]).length = 2 := by
  have h := load_archive_skips_bad_records.2.1
    [rawValid "2025-01-15", rawValid "2025-01-20"] (by decide)
  exact ⟨by decide, h.1, h.2⟩

/-- **C9**: a required field that is present but falsy (empty string; empty
object for `meetingInfo`) raises the same field-specific missing-field error as
an absent field, checked in source order. -/
theorem normalize_meeting_falsy_required_fields :
    (∀ (raw : RawMeeting) (i : Nat), (raw.workgroup = none ∨ raw.workgroup = some "") →
      normalizeMeeting raw i = .error "Missing required field: workgroup")
    ∧ (∀ (raw : RawMeeting) (i : Nat), ¬(raw.workgroup = none ∨ raw.workgroup = some "") →
        (raw.workgroup_id = none ∨ raw.workgroup_id = some "") →
        normalizeMeeting raw i = .error "Missing required field: workgroup_id")
    ∧ (∀ (raw : RawMeeting) (i : Nat), ¬(raw.workgroup = none ∨ raw.workgroup = some "") →
        ¬(raw.workgroup_id = none ∨ raw.workgroup_id = some "") →
        (raw.type = none ∨ raw.type = some "") →
        normalizeMeeting raw i = .error "Missing required field: type")
    ∧ (∀ (raw : RawMeeting) (i : Nat), ¬(raw.workgroup = none ∨ raw.workgroup = some "") →
        ¬(raw.workgroup_id = none ∨ raw.workgroup_id = some "") →
        ¬(raw.type = none ∨ raw.type = some "") →
        raw.meetingInfo = none →
        normalizeMeeting raw i = .error "Missing required field: meetingInfo")
    ∧ (∀ (raw : RawMeeting) (i : Nat) (mi : RawMeetingInfo),
        ¬(raw.workgroup = none ∨ raw.workgroup = some "") →
        ¬(raw.workgroup_id = none ∨ raw.workgroup_id = some "") →
        ¬(raw.type = none ∨ raw.type = some "") →
        raw.meetingInfo = some mi →
        (mi.date = none ∨ mi.date = some "") →
        normalizeMeeting raw i = .error "Missing required field: meetingInfo.date") := by
  refine ⟨?_, ?_, ?_, ?_, ?_⟩
  · intro raw i h
    simp only [normalizeMeeting]
    rw [pyTruthy?_none_of_falsy _ h]
  · intro raw i h1 h2
    obtain ⟨w, _, _, hw⟩ := pyTruthy?_of_truthy _ h1
    simp only [normalizeMeeting]
    rw [hw, pyTruthy?_none_of_falsy _ h2]
  · intro raw i h1 h2 h3
    obtain ⟨w, _, _, hw⟩ := pyTruthy?_of_truthy _ h1
    obtain ⟨wid, _, _, hwid⟩ := pyTruthy?_of_truthy _ h2
    simp only [normalizeMeeting]
    rw [hw, hwid, pyTruthy?_none_of_falsy _ h3]
  · intro raw i h1 h2 h3 h4
    obtain ⟨w, _, _, hw⟩ := pyTruthy?_of_truthy _ h1
    obtain ⟨wid, _, _, hwid⟩ := pyTruthy?_of_truthy _ h2
    obtain ⟨ty, _, _, hty⟩ := pyTruthy?_of_truthy _ h3
    simp only [normalizeMeeting]
    rw [hw, hwid, hty, h4]
  · intro raw i mi h1 h2 h3 h4 h5
    obtain ⟨w, _, _, hw⟩ := pyTruthy?_of_truthy _ h1
    obtain ⟨wid, _, _, hwid⟩ := pyTruthy?_of_truthy _ h2
    obtain ⟨ty, _, _, hty⟩ := pyTruthy?_of_truthy _ h3
    simp only [normalizeMeeting, hw, hwid, hty, h4]
    rw [pyTruthy?_none_of_falsy _ h5]

/-- Witness for C9: a record whose `workgroup` key holds an empty string fails
with the same error an absent `workgroup` produces, and an empty-string date
fails with the `meetingInfo.date` error. -/
theorem normalize_meeting_falsy_required_fields_witness :
    (({ rawValid "2025-01-15" with workgroup := some "" } : RawMeeting).workgroup = none ∨
      ({ rawValid "2025-01-15" with workgroup := some "" } : RawMeeting).workgroup = some "")
    ∧ normalizeMeeting { rawValid "2025-01-15" with workgroup := some "" } 0 =
        .error "Missing required field: workgroup"
    ∧ normalizeMeeting { rawValid "2025-01-15" with
        meetingInfo := some (rawInfoWithDate "") } 0 =
        .error "Missing required field: meetingInfo.date" := by
  refine ⟨Or.inr rfl, ?_, ?_⟩
  · exact normalize_meeting_falsy_required_fields.1
      { rawValid "2025-01-15" with workgroup := some "" } 0 (Or.inr rfl)
  · exact normalize_meeting_falsy_required_fields.2.2.2.2
      { rawValid "2025-01-15" with meetingInfo := some (rawInfoWithDate "") } 0
      (rawInfoWithDate "") (by decide) (by decide) (by decide) rfl (Or.inr rfl)

/-! ## Date-range filtering -/

theorem optFilterDate_both {α : Type} (dateOf : α → Nat) (l : List α) (s e : Option Nat) :
    optFilterDate (optFilterDate l s (fun sd x => sd ≤ dateOf x)) e (fun ed x => dateOf x ≤ ed) =
      l.filter (fun x => dateInRange s e (dateOf x)) := by
  rcases s with _ | sd <;> rcases e with _ | ed <;>
    simp [optFilterDate, dateInRange, List.filter_filter, Bool.and_comm]

/-- **C6**: date-range filtering of meetings, decisions and action items is
inclusive at both bounds, each bound omittable: an item is kept exactly when
its date is ≥ the given start and ≤ the given end; the `[2025-01-10,
2025-01-20]` example keeps exactly the 2025-01-15 meeting. -/
theorem date_range_filter_inclusive :
    (∀ (ms : List Meeting) (s e : Option Nat),
      filterMeetings ms none s e none = ms.filter (fun m => dateInRange s e m.date))
    ∧ (∀ (ds : List Decision) (s e : Option Nat),
        filterDecisions ds none s e = ds.filter (fun d => dateInRange s e d.date))
    ∧ (∀ (its : List ActionItem) (s e : Option Nat),
        filterActionItems its none none none s e =
          its.filter (fun a => dateInRange s e a.date))
    ∧ filterMeetings
        [datedMeeting "m1" 20250101, datedMeeting "m2" 20250115, datedMeeting "m3" 20250201]
        none (some 20250110) (some 20250120) none = [datedMeeting "m2" 20250115] := by
  refine ⟨?_, ?_, ?_, by decide⟩
  · intro ms s e
    by_cases h0 : ms = []
    · simp [h0, filterMeetings]
    · unfold filterMeetings
      rw [if_neg h0]
      have hmask : meetingMask none s e none = fun m => dateInRange s e m.date := by
        funext m
        simp [meetingMask, dateInRange]
      rw [hmask]
  · intro ds s e
    by_cases h0 : ds = []
    · simp [h0, filterDecisions]
    · unfold filterDecisions
      rw [if_neg h0]
      exact optFilterDate_both (fun d => d.date) ds s e
  · intro its s e
    by_cases h0 : its = []
    · simp [h0, filterActionItems]
    · unfold filterActionItems
      rw [if_neg h0]
      exact optFilterDate_both (fun a => a.date) its s e

/-! ## Criteria weakening -/

theorem optFilterStr_subset {α : Type} (l : List α) (c : Option String) (p : String → α → Bool)
    (x : α) (hx : x ∈ optFilterStr l c p) : x ∈ l := by
  rcases c with _ | w
  · exact hx
  · by_cases hw : w = ""
    · simpa [optFilterStr, hw] using hx
    · simp only [optFilterStr, if_neg hw] at hx
      exact List.mem_of_mem_filter hx

theorem optFilterDate_subset {α : Type} (l : List α) (c : Option Nat) (p : Nat → α → Bool)
    (x : α) (hx : x ∈ optFilterDate l c p) : x ∈ l := by
  rcases c with _ | d
  · exact hx
  · exact List.mem_of_mem_filter hx

theorem optFilterStr_mem_prop {α : Type} (l : List α) (c : Option String) (p : String → α → Bool)
    (x : α) (hx : x ∈ optFilterStr l c p) : ∀ w, c = some w → w ≠ "" → p w x = true := by
  intro w hc hw
  subst hc
  simp only [optFilterStr, if_neg hw] at hx
  exact List.of_mem_filter hx

theorem optFilterDate_mem_prop {α : Type} (l : List α) (c : Option Nat) (p : Nat → α → Bool)
    (x : α) (hx : x ∈ optFilterDate l c p) : ∀ d, c = some d → p d x = true := by
  intro d hc
  subst hc
  exact List.of_mem_filter hx

theorem optFilterStr_self {α : Type} (l : List α) (c : Option String) (p : String → α → Bool)
    (h : ∀ x ∈ l, ∀ w, c = some w → w ≠ "" → p w x = true) : optFilterStr l c p = l := by
  rcases c with _ | w
  · rfl
  · by_cases hw : w = ""
    · simp [optFilterStr, hw]
    · simp only [optFilterStr, if_neg hw]
      exact List.filter_eq_self.mpr (fun x hx => h x hx w rfl hw)

theorem optFilterDate_self {α : Type} (l : List α) (c : Option Nat) (p : Nat → α → Bool)
    (h : ∀ x ∈ l, ∀ d, c = some d → p d x = true) : optFilterDate l c p = l := by
  rcases c with _ | d
  · rfl
  · exact List.filter_eq_self.mpr (fun x hx => h x hx d rfl)

/-- Every element surviving `filter_meetings` satisfies the combined mask. -/
theorem filterMeetings_mem_mask (ms : List Meeting) (wg : Option String)
    (s e : Option Nat) (tg : Option (List String)) (m : Meeting)
    (hm : m ∈ filterMeetings ms wg s e tg) : meetingMask wg s e tg m = true := by
  unfold filterMeetings at hm
  by_cases h0 : ms = []
  · simp [h0] at hm
  · rw [if_neg h0] at hm
    exact List.of_mem_filter hm

theorem meetingMask_weaken (wg wg' : Option String) (s s' e e' : Option Nat)
    (tg tg' : Option (List String)) (m : Meeting)
    (h : meetingMask wg s e tg m = true)
    (hw : looserStrCriterion wg wg') (hs : looserStartDate s s')
    (he : looserEndDate e e') (ht : looserTagsCriterion tg tg') :
    meetingMask wg' s' e' tg' m = true := by
  simp only [meetingMask, Bool.and_eq_true] at h ⊢
  obtain ⟨⟨⟨h1, h2⟩, h3⟩, h4⟩ := h
  refine ⟨⟨⟨?_, ?_⟩, ?_⟩, ?_⟩
  · rcases hw with hw | hw <;> rw [hw]
    exact h1
  · rcases hs with hs | ⟨a, b, ha, hb, hba⟩
    · rw [hs]
    · rw [hb]
      rw [ha] at h2
      simp only [decide_eq_true_eq] at h2 ⊢
      omega
  · rcases he with he | ⟨a, b, ha, hb, hab⟩
    · rw [he]
    · rw [hb]
      rw [ha] at h3
      simp only [decide_eq_true_eq] at h3 ⊢
      omega
  · rcases ht with ht | ht <;> rw [ht]
    exact h4

/-- Every element surviving `filter_action_items` satisfies each criterion. -/
theorem filterActionItems_mem_facts (its : List ActionItem) (wg asg st : Option String)
    (s e : Option Nat) (x : ActionItem) (hx : x ∈ filterActionItems its wg asg st s e) :
    (∀ w, wg = some w → w ≠ "" → x.workgroup = w)
    ∧ (∀ w, asg = some w → w ≠ "" → x.assignee = some w)
    ∧ (∀ w, st = some w → w ≠ "" → x.status = w)
    ∧ (∀ d, s = some d → d ≤ x.date)
    ∧ (∀ d, e = some d → x.date ≤ d) := by
  unfold filterActionItems at hx
  by_cases h0 : its = []
  · simp [h0] at hx
  · rw [if_neg h0] at hx
    have he' := optFilterDate_mem_prop _ _ _ _ hx
    have hx4 := optFilterDate_subset _ _ _ _ hx
    have hs' := optFilterDate_mem_prop _ _ _ _ hx4
    have hx3 := optFilterDate_subset _ _ _ _ hx4
    have hst' := optFilterStr_mem_prop _ _ _ _ hx3
    have hx2 := optFilterStr_subset _ _ _ _ hx3
    have hasg' := optFilterStr_mem_prop _ _ _ _ hx2
    have hx1 := optFilterStr_subset _ _ _ _ hx2
    have hwg' := optFilterStr_mem_prop _ _ _ _ hx1
    exact ⟨fun w hc hne => of_decide_eq_true (hwg' w hc hne),
      fun w hc hne => of_decide_eq_true (hasg' w hc hne),
      fun w hc hne => of_decide_eq_true (hst' w hc hne),
      fun d hc => of_decide_eq_true (hs' d hc),
      fun d hc => of_decide_eq_true (he' d hc)⟩

/-- **C7**: filtering is idempotent under criteria weakening — re-filtering an
already-filtered collection (meetings or action items) with criteria that are
each absent or equal, with date bounds no tighter, returns it unchanged in the
same order. -/
theorem filter_weakening_idempotent :
    (∀ (ms : List Meeting) (wg wg' : Option String) (s s' e e' : Option Nat)
        (tg tg' : Option (List String)),
      looserStrCriterion wg wg' → looserStartDate s s' → looserEndDate e e' →
      looserTagsCriterion tg tg' →
      filterMeetings (filterMeetings ms wg s e tg) wg' s' e' tg' =
        filterMeetings ms wg s e tg)
    ∧ (∀ (its : List ActionItem) (wg asg st wg' asg' st' : Option String)
        (s s' e e' : Option Nat),
      looserStrCriterion wg wg' → looserStrCriterion asg asg' →
      looserStrCriterion st st' → looserStartDate s s' → looserEndDate e e' →
      filterActionItems (filterActionItems its wg asg st s e) wg' asg' st' s' e' =
        filterActionItems its wg asg st s e) := by
  constructor
  · intro ms wg wg' s s' e e' tg tg' hw hs he ht
    set out := filterMeetings ms wg s e tg with hout
    by_cases h0 : out = []
    · rw [h0]
      simp [filterMeetings]
    · unfold filterMeetings
      rw [if_neg h0]
      refine List.filter_eq_self.mpr (fun m hm => ?_)
      rw [hout] at hm
      exact meetingMask_weaken wg wg' s s' e e' tg tg' m
        (filterMeetings_mem_mask ms wg s e tg m hm) hw hs he ht
  · intro its wg asg st wg' asg' st' s s' e e' hw ha hst hs he
    set out := filterActionItems its wg asg st s e with hout
    by_cases h0 : out = []
    · rw [h0]
      simp [filterActionItems]
    · have hfacts : ∀ x ∈ out,
          (∀ w, wg = some w → w ≠ "" → x.workgroup = w)
          ∧ (∀ w, asg = some w → w ≠ "" → x.assignee = some w)
          ∧ (∀ w, st = some w → w ≠ "" → x.status = w)
          ∧ (∀ d, s = some d → d ≤ x.date)
          ∧ (∀ d, e = some d → x.date ≤ d) := by
        intro x hx
        rw [hout] at hx
        exact filterActionItems_mem_facts its wg asg st s e x hx
      unfold filterActionItems
      rw [if_neg h0]
      dsimp only
      rw [optFilterStr_self _ wg' _ (fun x hx w hc hne => by
        rcases hw with hw | hw
        · rw [hw] at hc; cases hc
        · rw [hw] at hc
          exact decide_eq_true ((hfacts x hx).1 w hc hne))]
      rw [optFilterStr_self _ asg' _ (fun x hx w hc hne => by
        rcases ha with ha | ha
        · rw [ha] at hc; cases hc
        · rw [ha] at hc
          exact decide_eq_true ((hfacts x hx).2.1 w hc hne))]
      rw [optFilterStr_self _ st' _ (fun x hx w hc hne => by
        rcases hst with hst | hst
        · rw [hst] at hc; cases hc
        · rw [hst] at hc
          exact decide_eq_true ((hfacts x hx).2.2.1 w hc hne))]
      rw [optFilterDate_self _ s' _ (fun x hx d hc => by
        rcases hs with hs | ⟨a, b, hsa, hsb, hba⟩
        · rw [hs] at hc; cases hc
        · rw [hsb] at hc
          cases hc
          have := (hfacts x hx).2.2.2.1 a hsa
          exact decide_eq_true (by omega))]
      rw [optFilterDate_self _ e' _ (fun x hx d hc => by
        rcases he with he | ⟨a, b, hea, heb, hab⟩
        · rw [he] at hc; cases hc
        · rw [heb] at hc
          cases hc
          have := (hfacts x hx).2.2.2.2 a hea
          exact decide_eq_true (by omega))]

/-- Witness for C7: a concrete filtered collection re-filtered with looser
criteria (workgroup kept, start bound relaxed, end bound dropped) is unchanged. -/
theorem filter_weakening_idempotent_witness :
    looserStrCriterion (some "WG") (some "WG")
    ∧ looserStartDate (some 20250110) (some 20250101)
    ∧ looserEndDate (some 20250120) none
    ∧ looserTagsCriterion none none
    ∧ filterMeetings
        (filterMeetings
          [datedMeeting "m1" 20250101, datedMeeting "m2" 20250115, datedMeeting "m3" 20250201]
          (some "WG") (some 20250110) (some 20250120) none)
        (some "WG") (some 20250101) none none =
      filterMeetings
        [datedMeeting "m1" 20250101, datedMeeting "m2" 20250115, datedMeeting "m3" 20250201]
        (some "WG") (some 20250110) (some 20250120) none :=
  ⟨Or.inr rfl, Or.inr ⟨20250110, 20250101, rfl, rfl, by omega⟩, Or.inl rfl, Or.inl rfl,
    filter_weakening_idempotent.1
      [datedMeeting "m1" 20250101, datedMeeting "m2" 20250115, datedMeeting "m3" 20250201]
      (some "WG") (some "WG") (some 20250110) (some 20250101) (some 20250120) none none none
      (Or.inr rfl) (Or.inr ⟨20250110, 20250101, rfl, rfl, by omega⟩) (Or.inl rfl) (Or.inl rfl)⟩

/-! ## Graph-filter dispatch -/

/-- **C10**: `filter_graph` dispatches on the node-type labels of the input
graph — it rebuilds the people-workgroups graph only when some node is labeled
`"person"` or `"workgroup"`, and for any graph without such nodes (in
particular any graph with no nodes at all, whichever builder produced it) it
rebuilds the topic co-occurrence graph over the filtered meetings. -/
theorem filter_graph_dispatch :
    (∀ (g : NXGraph) (ms : List Meeting) (w : Option String) (s e : Option Nat),
      (∃ n ∈ g.nodes, n.2 = "person" ∨ n.2 = "workgroup") →
      filterGraph g ms w s e = buildPeopleWorkgroupsGraph (graphFilterMeetings ms w s e))
    ∧ (∀ (g : NXGraph) (ms : List Meeting) (w : Option String) (s e : Option Nat),
        (∀ n ∈ g.nodes, n.2 ≠ "person" ∧ n.2 ≠ "workgroup") →
        filterGraph g ms w s e = buildTopicCooccurrenceGraph (graphFilterMeetings ms w s e))
    ∧ (∀ (g : NXGraph) (ms : List Meeting) (w : Option String) (s e : Option Nat),
        g.nodes = [] →
        filterGraph g ms w s e = buildTopicCooccurrenceGraph (graphFilterMeetings ms w s e)) := by
  refine ⟨?_, ?_, ?_⟩
  · rintro g ms w s e ⟨n, hn, htype⟩
    unfold filterGraph
    rw [if_pos]
    rcases htype with h | h
    · exact Or.inl (List.mem_map.mpr ⟨n, hn, h⟩)
    · exact Or.inr (List.mem_map.mpr ⟨n, hn, h⟩)
  · intro g ms w s e h
    unfold filterGraph
    rw [if_neg]
    rintro (hp | hp) <;> obtain ⟨n, hn, hn2⟩ := List.mem_map.mp hp
    · exact (h n hn).1 hn2
    · exact (h n hn).2 hn2
  · intro g ms w s e hg
    unfold filterGraph
    rw [if_neg]
    rw [hg]
    rintro (hp | hp) <;> simp at hp

/-- Witness for C10: the participation graph of an empty meeting collection has
no nodes, and filtering it rebuilds a topic co-occurrence graph over the
filtered meetings. -/
theorem filter_graph_dispatch_witness :
    (buildPeopleWorkgroupsGraph []).nodes = []
    ∧ filterGraph (buildPeopleWorkgroupsGraph []) fourTopicMeetings none none none =
        buildTopicCooccurrenceGraph (graphFilterMeetings fourTopicMeetings none none none) :=
  ⟨rfl, filter_graph_dispatch.2.2 (buildPeopleWorkgroupsGraph []) fourTopicMeetings
    none none none rfl⟩

end Archive
